import Mathlib

/-!
# Verification of `webpack-entrypoint-list-plugin` (src/index.ts)

Shallow embedding of the TypeScript plugin in `src/index.ts`.  JavaScript
objects with string keys are modelled as insertion-ordered association
lists (`dictAssign` reproduces JS property assignment: an existing key is
overwritten in place, a new key is appended).  The filesystem is a static
association list from full paths to file metadata; since SHA-512 is a
deterministic function of a file's bytes, a file's hex digest is stored as
filesystem data and `fileSha512` looks it up (returning `none` models the
`readFileSync` exception for a missing path).  The manifest build is
instrumented with a trace of `fileSha512` invocations so that
"hash computed exactly once" claims can be stated.
-/

namespace EntrypointLister

/-- Lookup in a JS-object model: first entry with the given key. -/
def dictLookup {α : Type} : List (String × α) → String → Option α
  | [], _ => none
  | (k', v) :: rest, k => if k' = k then some v else dictLookup rest k

/-- JS property assignment `obj[k] = v`: overwrite in place if the key
exists, otherwise append (string keys keep insertion order). -/
def dictAssign {α : Type} : List (String × α) → String → α → List (String × α)
  | [], k, v => [(k, v)]
  | (k', v') :: rest, k, v =>
    if k' = k then (k, v) :: rest else (k', v') :: dictAssign rest k v

/-- The keys of a JS-object model, in property order. -/
def dictKeys {α : Type} (d : List (String × α)) : List String :=
  d.map Prod.fst

/-- `Object.assign(base, upd)`: assign every property of `upd` onto `base`
in order. -/
def objectAssign {α : Type} (base upd : List (String × α)) : List (String × α) :=
  upd.foldl (fun d kv => dictAssign d kv.1 kv.2) base

/-- `path.join(a, b)` for a directory and a plain relative file name. -/
def pathJoin (a b : String) : String := a ++ "/" ++ b

/-- Metadata of one file in the output directory: its `statSync` size and
the SHA-512 hex digest of its bytes (the value `fileSha512` computes). -/
structure FsFile where
  size : Nat
  hashHex : String
deriving DecidableEq, Repr

/-- The output directory's state during one build: full path ↦ file. -/
abbrev FS : Type := List (String × FsFile)

/-- `statSync` (and a successful `readFileSync`): `none` models the thrown
`ENOENT` error. -/
def FS.stat (fs : FS) (path : String) : Option FsFile :=
  dictLookup fs path

/-- `fileSha512(path)` from src/index.ts lines 19–25: read the file and
return the SHA-512 hex digest of its bytes; `none` models the uncaught
read exception. -/
def fileSha512 (fs : FS) (path : String) : Option String :=
  (FS.stat fs path).map FsFile.hashHex

/-- Hex digit value, `none` for a non-hex character. -/
def hexDigitVal (c : Char) : Option Nat :=
  if '0' ≤ c ∧ c ≤ '9' then some (c.toNat - '0'.toNat)
  else if 'a' ≤ c ∧ c ≤ 'f' then some (c.toNat - 'a'.toNat + 10)
  else if 'A' ≤ c ∧ c ≤ 'F' then some (c.toNat - 'A'.toNat + 10)
  else none

/-- `Buffer.from(hex, "hex")`: decode hex pairs to bytes, stopping at the
first incomplete or invalid pair. -/
def hexToBytes : List Char → List Nat
  | c1 :: c2 :: rest =>
    match hexDigitVal c1, hexDigitVal c2 with
    | some h, some l => (16 * h + l) :: hexToBytes rest
    | _, _ => []
  | _ => []

/-- The base64 alphabet character for a 6-bit value. -/
def b64Char (n : Nat) : Char :=
  "ABCDEFGHIJKLMNOPQRSTUVWXYZabcdefghijklmnopqrstuvwxyz0123456789+/".toList.getD n 'A'

/-- Standard base64 with padding, as `Buffer.toString("base64")`. -/
def base64Encode : List Nat → String
  | [] => ""
  | [b1] =>
    String.mk [b64Char (b1 / 4), b64Char (b1 % 4 * 16)] ++ "=="
  | [b1, b2] =>
    String.mk [b64Char (b1 / 4), b64Char (b1 % 4 * 16 + b2 / 16),
      b64Char (b2 % 16 * 4)] ++ "="
  | b1 :: b2 :: b3 :: rest =>
    String.mk [b64Char (b1 / 4), b64Char (b1 % 4 * 16 + b2 / 16),
      b64Char (b2 % 16 * 4 + b3 / 64), b64Char (b3 % 64)] ++ base64Encode rest

/-- `ssri.fromHex(hex, "sha512").toString()`: the SRI string
`sha512-<base64 of the digest bytes>`. -/
def sriFromHex (hex : String) : String :=
  "sha512-" ++ base64Encode (hexToBytes hex.toList)

/-- A filename matcher (`IFilenameTest.test`); the configured regexes are
embedded as boolean functions on the filename. -/
def FilenameTest : Type := String → Bool

/-- Suffix test on strings, used to embed the end-anchored regexes
(`\.js$` etc.) of the default configuration. -/
def strEndsWith (s suffix : String) : Bool :=
  let sl := s.toList
  let tl := suffix.toList
  decide (sl.drop (sl.length - tl.length) = tl ∧ tl.length ≤ sl.length)

/-- One entry of the `variants` dict of a `FileRecord` (`IVariantData`):
object-literal field order is `file`, `size`, `hash`. -/
structure VariantData where
  file : String
  size : Nat
  hash : String
deriving DecidableEq, Repr

/-- `IEntrypointData`: object-literal field order `stylesheets`, `scripts`. -/
structure EntrypointData where
  stylesheets : List String
  scripts : List String
deriving DecidableEq, Repr

/-- `IFileData`: object-literal field order `contentType`, `variants`,
`sriHash` (src/index.ts lines 178–182). -/
structure FileData where
  contentType : String
  variants : List (String × VariantData)
  sriHash : String
deriving DecidableEq, Repr

/-- The constructor options record (`WebpackEntrypointListerPluginOptions`);
`none` models an absent (undefined) property. -/
structure PluginOptions where
  outputDir : Option String := none
  outputFilename : Option String := none
  fileTypes : Option (List (String × FilenameTest)) := none
  additionalFileTypes : Option (List (String × FilenameTest)) := none
  variants : Option (List (String × String)) := none

/-- The default `fileTypes` dict from the constructor (src/index.ts lines
110–116); each regex `\.xxx$` is a suffix test, and `\.(js|css)\.map$`
matches either suffix. -/
def defaultFileTypes : List (String × FilenameTest) :=
  [("application/javascript", fun f => strEndsWith f ".js"),
   ("text/css", fun f => strEndsWith f ".css"),
   ("image/svg+xml", fun f => strEndsWith f ".svg"),
   ("image/png", fun f => strEndsWith f ".png"),
   ("text/plain", fun f => strEndsWith f ".js.map" || strEndsWith f ".css.map")]

/-- The default `variants` dict from the constructor (lines 118–121). -/
def defaultVariants : List (String × String) :=
  [("br", ".br"), ("gzip", ".gz")]

/-- The plugin state after the constructor ran. -/
structure Plugin where
  outputDir : Option String
  outputFilename : String
  fileTypes : List (String × FilenameTest)
  variants : List (String × String)

/-- JS `s || default` for an optional string: `undefined` and `""` are
falsy. -/
def strOr (o : Option String) (dflt : String) : String :=
  match o with
  | some s => if s = "" then dflt else s
  | none => dflt

/-- The `WebpackEntrypointListerPlugin` constructor (src/index.ts lines
107–122): defaults, then `Object.assign(this.fileTypes, additionalFileTypes)`. -/
def mkPlugin (options : PluginOptions) : Plugin :=
  { outputDir :=
      match options.outputDir with
      | some s => if s = "" then none else some s
      | none => none
    outputFilename := strOr options.outputFilename "webpack-entrypoints.json"
    fileTypes := objectAssign (options.fileTypes.getD defaultFileTypes)
      (options.additionalFileTypes.getD [])
    variants := options.variants.getD defaultVariants }

/-- `_determineContentType` (src/index.ts lines 194–199): first matching
pattern wins, fallback `application/octet-stream`. -/
def _determineContentType (fileTypes : List (String × FilenameTest)) (file : String) : String :=
  match fileTypes with
  | [] => "application/octet-stream"
  | (mimeType, t) :: rest =>
    if t file then mimeType else _determineContentType rest file

/-- One recorded invocation of `fileSha512` during a build: either the
base-file hash at line 152 of src/index.ts, or a hash computed inside
`computeVariant` (line 40) for the named variant. -/
inductive HashCall where
  | base (file : String)
  | variant (file : String) (variantName : String) (extension : String)
deriving DecidableEq, Repr

/-- `computeVariant` (src/index.ts lines 27–50): stat `prefix/file+ext`;
on `ENOENT` silently skip; otherwise insert a variant entry, using
`knownHash || fileSha512(fullPath)` (JS `||`: an empty known hash is falsy).
Returns the updated variants dict and the `fileSha512` calls made. -/
def computeVariant (fs : FS) (variants : List (String × VariantData))
    (pfx file variantName extension : String) (knownHash : Option String) :
    List (String × VariantData) × List HashCall :=
  let fullPath := pathJoin pfx (file ++ extension)
  match FS.stat fs fullPath with
  | none => (variants, [])
  | some st =>
    let hc : String × List HashCall :=
      match knownHash with
      | some k =>
        if k = "" then (st.hashHex, [HashCall.variant file variantName extension])
        else (k, [])
      | none => (st.hashHex, [HashCall.variant file variantName extension])
    (dictAssign variants variantName
      { file := file ++ extension, size := st.size, hash := hc.1 }, hc.2)

/-- The mutable state of the `done`-hook callback body (src/index.ts lines
126–127), extended with the trace of `fileSha512` invocations. -/
structure BuildState where
  entrypoints : List (String × EntrypointData)
  files : List (String × FileData)
  calls : List HashCall

/-- Probe all configured variants in order (the loop at src/index.ts lines
166–176), accumulating dict entries and hash calls. -/
def probeVariants (fs : FS) (outPath file : String) :
    List (String × String) → List (String × VariantData) × List HashCall →
    List (String × VariantData) × List HashCall
  | [], acc => acc
  | (variantName, extension) :: rest, acc =>
    let step := computeVariant fs acc.1 outPath file variantName extension none
    probeVariants fs outPath file rest (step.1, acc.2 ++ step.2)

/-- Append `file` to the current entrypoint's `scripts` or `stylesheets`
according to its content type (src/index.ts lines 139–143); the entrypoint
record is looked up by name in the entrypoints dict, modelling the shared
mutable object. -/
def pushClassified (eps : List (String × EntrypointData)) (name contentType file : String) :
    List (String × EntrypointData) :=
  match dictLookup eps name with
  | none => eps
  | some ep =>
    if contentType = "application/javascript" then
      dictAssign eps name { ep with scripts := ep.scripts ++ [file] }
    else if contentType = "text/css" then
      dictAssign eps name { ep with stylesheets := ep.stylesheets ++ [file] }
    else eps

/-- The first-encounter part of the loop body (src/index.ts lines
145–183): the SRI hash from the already-computed digest, the identity
variant with the known hash, then the configured variant probes.  Returns
the new `FileRecord` together with the `fileSha512` calls made while
probing variants. -/
def buildFileData (p : Plugin) (fs : FS) (outPath file contentHash : String) :
    FileData × List HashCall :=
  let idStep := computeVariant fs [] outPath file "identity" "" (some contentHash)
  let varStep := probeVariants fs outPath file p.variants idStep
  ({ contentType := _determineContentType p.fileTypes file,
     variants := varStep.1, sriHash := sriFromHex contentHash }, varStep.2)

/-- The body of the innermost loop (src/index.ts lines 136–184) for one
`file` of a chunk of entrypoint `name`: classify, append to the entrypoint
lists, and on first encounter hash the base file and build the
`FileRecord`.  `none` models the uncaught exception from `fileSha512` on a
missing base file. -/
def processFile (p : Plugin) (fs : FS) (outPath : String)
    (st : BuildState) (name file : String) : Option BuildState :=
  let eps := pushClassified st.entrypoints name (_determineContentType p.fileTypes file) file
  match dictLookup st.files file with
  | some _ => some { st with entrypoints := eps }
  | none =>
    match fileSha512 fs (pathJoin outPath file) with
    | none => none
    | some contentHash =>
      let built := buildFileData p fs outPath file contentHash
      some { entrypoints := eps,
             files := dictAssign st.files file built.1,
             calls := st.calls ++ HashCall.base file :: built.2 }

/-- The loop over one chunk's files (src/index.ts line 136). -/
def processChunkFiles (p : Plugin) (fs : FS) (outPath name : String) :
    BuildState → List String → Option BuildState
  | st, [] => some st
  | st, file :: rest =>
    match processFile p fs outPath st name file with
    | none => none
    | some st' => processChunkFiles p fs outPath name st' rest

/-- The loop over an entrypoint's chunks (src/index.ts line 135). -/
def processChunks (p : Plugin) (fs : FS) (outPath name : String) :
    BuildState → List (List String) → Option BuildState
  | st, [] => some st
  | st, chunk :: rest =>
    match processChunkFiles p fs outPath name st chunk with
    | none => none
    | some st' => processChunks p fs outPath name st' rest

/-- The loop over the compilation's entrypoints (src/index.ts lines
128–186): create a fresh record per entrypoint name, then walk its chunks. -/
def processEntrypoints (p : Plugin) (fs : FS) (outPath : String) :
    BuildState → List (String × List (List String)) → Option BuildState
  | st, [] => some st
  | st, (name, chunks) :: rest =>
    let st₀ := { st with
      entrypoints := dictAssign st.entrypoints name { stylesheets := [], scripts := [] } }
    match processChunks p fs outPath name st₀ chunks with
    | none => none
    | some st' => processEntrypoints p fs outPath st' rest

/-- What the webpack `Stats` object contributes: the ordered
entrypoint-name ↦ chunk ↦ filename graph and `outputOptions.path`. -/
structure Stats where
  entrypoints : List (String × List (List String))
  outputPath : String

/-- Run the `done`-hook callback (src/index.ts lines 125–191) up to, but
not including, the write; `none` models an uncaught exception. -/
def buildManifest (p : Plugin) (fs : FS) (stats : Stats) : Option BuildState :=
  processEntrypoints p fs stats.outputPath
    { entrypoints := [], files := [], calls := [] } stats.entrypoints

/-- `JSON.stringify` string escaping, restricted to the characters the
manifest's strings contain (quote and backslash). -/
def jsonEscape (s : String) : String :=
  s.toList.foldr (fun c acc =>
    (if c = '"' then "\\\"" else if c = '\\' then "\\\\" else String.singleton c) ++ acc) ""

/-- A JSON string literal. -/
def jsonStr (s : String) : String := "\"" ++ jsonEscape s ++ "\""

/-- A JSON array of strings. -/
def jsonArr (xs : List String) : String :=
  "[" ++ String.intercalate "," (xs.map jsonStr) ++ "]"

/-- A JSON object from already-serialized field values, in field order
(as `JSON.stringify` serializes string-keyed properties in insertion
order). -/
def jsonObj (fields : List (String × String)) : String :=
  "\x7b" ++ String.intercalate ","
    (fields.map (fun kv => jsonStr kv.1 ++ ":" ++ kv.2)) ++ "\x7d"

/-- Serialize one variant record (field order `file`, `size`, `hash`). -/
def variantJson (v : VariantData) : String :=
  jsonObj [("file", jsonStr v.file), ("size", toString v.size), ("hash", jsonStr v.hash)]

/-- Serialize one file record (field order `contentType`, `variants`,
`sriHash`, src/index.ts lines 178–182). -/
def fileJson (fd : FileData) : String :=
  jsonObj [("contentType", jsonStr fd.contentType),
    ("variants", jsonObj (fd.variants.map (fun kv => (kv.1, variantJson kv.2)))),
    ("sriHash", jsonStr fd.sriHash)]

/-- Serialize one entrypoint record (field order `stylesheets`, `scripts`). -/
def entrypointJson (ep : EntrypointData) : String :=
  jsonObj [("stylesheets", jsonArr ep.stylesheets), ("scripts", jsonArr ep.scripts)]

/-- `JSON.stringify({ entrypoints, files })` (src/index.ts line 190). -/
def manifestJson (st : BuildState) : String :=
  jsonObj [("entrypoints", jsonObj (st.entrypoints.map (fun kv => (kv.1, entrypointJson kv.2)))),
    ("files", jsonObj (st.files.map (fun kv => (kv.1, fileJson kv.2))))]

/-- The whole `done`-hook callback including the write (src/index.ts lines
188–190): on success, the output path (`this.outputDir ||
stats.compilation.outputOptions.path`, joined with the output filename)
and the serialized manifest bytes; `none` models an uncaught exception,
in which case nothing is written. -/
def runPlugin (p : Plugin) (fs : FS) (stats : Stats) : Option (String × String) :=
  match buildManifest p fs stats with
  | none => none
  | some st =>
    let outputDir :=
      match p.outputDir with
      | some d => d
      | none => stats.outputPath
    some (pathJoin outputDir p.outputFilename, manifestJson st)

/-- `f` is one of the filenames of some chunk of some entrypoint of the
build graph. -/
def mentionedB (stats : Stats) (f : String) : Bool :=
  stats.entrypoints.any (fun ep => ep.2.any (fun chunk => chunk.any (fun g => g == f)))

/-- How many times `fileSha512` was invoked on the uncompressed base file
named `g` during a build (the call at src/index.ts line 152). -/
def countBase : List HashCall → String → Nat
  | [], _ => 0
  | HashCall.base g' :: rest, g => (if g' = g then 1 else 0) + countBase rest g
  | HashCall.variant _ _ _ :: rest, g => countBase rest g

/-- The classifier as the spec words it (§4.3): "return the content type
of the first pattern that matches the filename; if no pattern matches,
return a generic fallback type" — stated via `List.find?`.  To be compared
with `_determineContentType`, which is translated from the code. -/
def classifierSpec (fileTypes : List (String × FilenameTest)) (file : String) : String :=
  match fileTypes.find? (fun kv => kv.2 file) with
  | some kv => kv.1
  | none => "application/octet-stream"

/-! ### Concrete fixtures used by witnesses and counterexamples -/

/-- A 128-character lowercase hex string, the shape of a SHA-512 hex
digest. -/
def hexA : String := String.join (List.replicate 64 "a1")

/-- The plugin with default options. -/
def wPlugin : Plugin := mkPlugin {}

/-- A small output directory: two base files and a brotli sibling for one
of them. -/
def wFs : FS :=
  [("out/shared.js", { size := 10, hashHex := hexA }),
   ("out/shared.js.br", { size := 4, hashHex := String.join (List.replicate 64 "b2") }),
   ("out/main.css", { size := 8, hashHex := String.join (List.replicate 64 "c3") })]

/-- A build graph with two entrypoints that both reference `shared.js`. -/
def wStats : Stats :=
  { entrypoints := [("one", [["shared.js", "main.css"]]), ("two", [["shared.js"]])],
    outputPath := "out" }

/-- The manifest state the fixture build produces. -/
def wBuild : BuildState :=
  (buildManifest wPlugin wFs wStats).getD { entrypoints := [], files := [], calls := [] }

/-- The `FileRecord` the fixture build produces for `shared.js`. -/
def wSharedFd : FileData :=
  (dictLookup wBuild.files "shared.js").getD { contentType := "", variants := [], sriHash := "" }

/-- The `EntrypointRecord` the fixture build produces for entrypoint
`one`. -/
def wEpOne : EntrypointData :=
  (dictLookup wBuild.entrypoints "one").getD { stylesheets := [], scripts := [] }

/-- The `FileRecord` the fixture build produces for `main.css` (which has
no compressed siblings on disk). -/
def wCssFd : FileData :=
  (dictLookup wBuild.files "main.css").getD { contentType := "", variants := [], sriHash := "" }

/-- A build graph referencing a file that does not exist in `wFs`. -/
def w8Stats : Stats :=
  { entrypoints := [("e", [["missing.js"]])], outputPath := "out" }

/-- A loop-body starting state with one empty entrypoint record. -/
def wSt5 : BuildState :=
  { entrypoints := [("one", { stylesheets := [], scripts := [] })], files := [], calls := [] }

/-- The loop-body state after processing `shared.js` from `wSt5`. -/
def wSt5' : BuildState :=
  (processFile wPlugin wFs "out" wSt5 "one" "shared.js").getD
    { entrypoints := [], files := [], calls := [] }

/-- An `additionalFileTypes` value that overrides the matcher of an
existing key and adds one new key. -/
def wAdd : List (String × FilenameTest) :=
  [("application/javascript", fun f => strEndsWith f ".mjs"),
   ("text/markdown", fun f => strEndsWith f ".md")]

/-- Options passing only `additionalFileTypes`. -/
def wOptionsAdd : PluginOptions := { additionalFileTypes := some wAdd }

/-! ### Lemmas about the JS-object model -/

theorem dictLookup_dictAssign {α : Type} (d : List (String × α)) (k k' : String) (v : α) :
    dictLookup (dictAssign d k v) k' = if k = k' then some v else dictLookup d k' := by
  by_cases hkk : k = k'
  · subst hkk
    rw [if_pos rfl]
    induction d with
    | nil => simp [dictAssign, dictLookup]
    | cons hd tl ih =>
      obtain ⟨k₀, v₀⟩ := hd
      by_cases h0 : k₀ = k <;> simp [dictAssign, dictLookup, h0, ih]
  · rw [if_neg hkk]
    induction d with
    | nil => simp [dictAssign, dictLookup, hkk]
    | cons hd tl ih =>
      obtain ⟨k₀, v₀⟩ := hd
      by_cases h0 : k₀ = k
      · subst h0
        simp [dictAssign, dictLookup, hkk]
      · by_cases h1 : k₀ = k'
        · subst h1
          simp [dictAssign, dictLookup, h0]
        · simp [dictAssign, dictLookup, h0, h1, ih]

theorem dictLookup_isSome_dictAssign {α : Type} {d : List (String × α)} {g : String}
    (k : String) (v : α) (h : (dictLookup d g).isSome) :
    (dictLookup (dictAssign d k v) g).isSome := by
  rw [dictLookup_dictAssign]
  by_cases hk : k = g <;> simp [hk, h]

theorem dictLookup_mem {α : Type} {d : List (String × α)} {k : String} {v : α}
    (h : dictLookup d k = some v) : (k, v) ∈ d := by
  induction d with
  | nil => simp [dictLookup] at h
  | cons hd tl ih =>
    obtain ⟨k₀, v₀⟩ := hd
    by_cases h0 : k₀ = k
    · subst h0
      simp [dictLookup] at h
      simp [h]
    · simp [dictLookup, h0] at h
      exact List.mem_cons_of_mem _ (ih h)

theorem dictLookup_eq_none_iff {α : Type} (d : List (String × α)) (k : String) :
    dictLookup d k = none ↔ k ∉ dictKeys d := by
  induction d with
  | nil => simp [dictLookup, dictKeys]
  | cons hd tl ih =>
    obtain ⟨k₀, v₀⟩ := hd
    by_cases h0 : k₀ = k
    · subst h0
      simp [dictLookup, dictKeys]
    · have : k ≠ k₀ := fun hh => h0 hh.symm
      simp [dictLookup, dictKeys, h0, ih, this]

theorem dictAssign_of_not_mem {α : Type} {d : List (String × α)} {k : String} (v : α)
    (h : k ∉ dictKeys d) : dictAssign d k v = d ++ [(k, v)] := by
  induction d with
  | nil => simp [dictAssign]
  | cons hd tl ih =>
    obtain ⟨k₀, v₀⟩ := hd
    have h' : ¬(k = k₀ ∨ k ∈ dictKeys tl) := by simpa [dictKeys] using h
    rw [not_or] at h'
    have h0 : k₀ ≠ k := fun hh => h'.1 hh.symm
    simp [dictAssign, h0, ih h'.2]

theorem dictKeys_dictAssign_of_mem {α : Type} {d : List (String × α)} {k : String} (v : α)
    (h : k ∈ dictKeys d) : dictKeys (dictAssign d k v) = dictKeys d := by
  induction d with
  | nil => simp [dictKeys] at h
  | cons hd tl ih =>
    obtain ⟨k₀, v₀⟩ := hd
    by_cases h0 : k₀ = k
    · simp [dictAssign, dictKeys, h0]
    · have h' : k = k₀ ∨ k ∈ dictKeys tl := by simpa [dictKeys] using h
      have hk : k ∈ dictKeys tl := by
        rcases h' with h1 | h1
        · exact absurd h1.symm h0
        · exact h1
      have htl := ih hk
      simp only [dictKeys] at htl
      simp [dictAssign, dictKeys, h0, htl]

theorem dictKeys_objectAssign {α : Type} (base add : List (String × α))
    (h : (dictKeys add).Nodup) :
    dictKeys (objectAssign base add) =
      dictKeys base ++ (dictKeys add).filter (fun k => decide (k ∉ dictKeys base)) := by
  induction add generalizing base with
  | nil => simp [objectAssign, dictKeys]
  | cons hd tl ih =>
    obtain ⟨k, v⟩ := hd
    simp only [dictKeys, List.map_cons] at h
    rw [List.nodup_cons] at h
    have hstep : objectAssign base ((k, v) :: tl) = objectAssign (dictAssign base k v) tl := rfl
    have htl : (dictKeys tl).Nodup := h.2
    rw [hstep, ih _ htl]
    by_cases hk : k ∈ dictKeys base
    · rw [dictKeys_dictAssign_of_mem v hk]
      have hk' : k ∈ List.map Prod.fst base := by simpa [dictKeys] using hk
      simp [dictKeys, List.filter_cons, hk']
    · rw [dictAssign_of_not_mem v hk]
      have hkeys : dictKeys (base ++ [(k, v)]) = dictKeys base ++ [k] := by
        simp [dictKeys]
      have hfilter : ∀ a ∈ dictKeys tl,
          decide (a ∉ dictKeys (base ++ [(k, v)])) = decide (a ∉ dictKeys base) := by
        intro a ha
        have hak : a ≠ k := fun hh => h.1 (hh ▸ ha)
        apply decide_eq_decide.mpr
        simp [dictKeys, hak]
      rw [List.filter_congr hfilter]
      have hk' : k ∉ List.map Prod.fst base := by simpa [dictKeys] using hk
      simp [dictKeys, List.filter_cons, hk', hkeys]

theorem dictLookup_objectAssign {α : Type} (base add : List (String × α)) (k : String)
    (h : (dictKeys add).Nodup) :
    dictLookup (objectAssign base add) k =
      (dictLookup add k).or (dictLookup base k) := by
  induction add generalizing base with
  | nil => simp [objectAssign, dictLookup]
  | cons hd tl ih =>
    obtain ⟨k', v'⟩ := hd
    simp only [dictKeys, List.map_cons] at h
    rw [List.nodup_cons] at h
    have hstep : objectAssign base ((k', v') :: tl) = objectAssign (dictAssign base k' v') tl := rfl
    rw [hstep, ih _ h.2]
    by_cases hk : k' = k
    · subst hk
      have htl : dictLookup tl k' = none := by
        rw [dictLookup_eq_none_iff]
        exact h.1
      simp [dictLookup, htl, dictLookup_dictAssign]
    · simp [dictLookup, hk, dictLookup_dictAssign]

/-! ### Lemmas about variant probing -/

theorem countBase_append (l₁ l₂ : List HashCall) (g : String) :
    countBase (l₁ ++ l₂) g = countBase l₁ g + countBase l₂ g := by
  induction l₁ with
  | nil => simp [countBase]
  | cons hd tl ih =>
    cases hd with
    | base g' =>
      show (if g' = g then 1 else 0) + countBase (tl ++ l₂) g =
        (if g' = g then 1 else 0) + countBase tl g + countBase l₂ g
      rw [ih]
      omega
    | variant a b c =>
      show countBase (tl ++ l₂) g = countBase tl g + countBase l₂ g
      exact ih

theorem countBase_eq_zero {l : List HashCall} {g : String}
    (h : ∀ c ∈ l, ∀ g', c ≠ HashCall.base g') : countBase l g = 0 := by
  induction l with
  | nil => rfl
  | cons hd tl ih =>
    cases hd with
    | base g' => exact absurd rfl (h _ (List.mem_cons_self _ _) g')
    | variant a b c =>
      simpa [countBase] using ih (fun c hc => h c (List.mem_cons_of_mem _ hc))

theorem computeVariant_of_missing {fs : FS} {pfx file extension : String}
    (variants : List (String × VariantData)) (variantName : String)
    (knownHash : Option String)
    (h : FS.stat fs (pathJoin pfx (file ++ extension)) = none) :
    computeVariant fs variants pfx file variantName extension knownHash = (variants, []) := by
  simp [computeVariant, h]

theorem computeVariant_of_found_fresh {fs : FS} {pfx file extension : String} {stt : FsFile}
    (variants : List (String × VariantData)) (variantName : String)
    (h : FS.stat fs (pathJoin pfx (file ++ extension)) = some stt) :
    computeVariant fs variants pfx file variantName extension none =
      (dictAssign variants variantName
        { file := file ++ extension, size := stt.size, hash := stt.hashHex },
       [HashCall.variant file variantName extension]) := by
  simp [computeVariant, h]

theorem computeVariant_of_found_known {fs : FS} {pfx file extension k : String} {stt : FsFile}
    (variants : List (String × VariantData)) (variantName : String)
    (h : FS.stat fs (pathJoin pfx (file ++ extension)) = some stt) (hk : k ≠ "") :
    computeVariant fs variants pfx file variantName extension (some k) =
      (dictAssign variants variantName
        { file := file ++ extension, size := stt.size, hash := k }, []) := by
  simp [computeVariant, h, hk]

theorem computeVariant_of_found_known_empty {fs : FS} {pfx file extension : String}
    {stt : FsFile} (variants : List (String × VariantData)) (variantName : String)
    (h : FS.stat fs (pathJoin pfx (file ++ extension)) = some stt) :
    computeVariant fs variants pfx file variantName extension (some "") =
      (dictAssign variants variantName
        { file := file ++ extension, size := stt.size, hash := stt.hashHex },
       [HashCall.variant file variantName extension]) := by
  simp [computeVariant, h]

theorem computeVariant_calls (fs : FS) (variants : List (String × VariantData))
    (pfx file variantName extension : String) (knownHash : Option String) :
    (computeVariant fs variants pfx file variantName extension knownHash).2 = [] ∨
    (computeVariant fs variants pfx file variantName extension knownHash).2 =
      [HashCall.variant file variantName extension] := by
  cases hstat : FS.stat fs (pathJoin pfx (file ++ extension)) with
  | none => rw [computeVariant_of_missing variants variantName knownHash hstat]; exact Or.inl rfl
  | some stt =>
    cases knownHash with
    | none => rw [computeVariant_of_found_fresh variants variantName hstat]; exact Or.inr rfl
    | some k =>
      by_cases hk : k = ""
      · subst hk
        rw [computeVariant_of_found_known_empty variants variantName hstat]
        exact Or.inr rfl
      · rw [computeVariant_of_found_known variants variantName hstat hk]
        exact Or.inl rfl

theorem probeVariants_cons (fs : FS) (outPath file vn ext : String)
    (tl : List (String × String)) (acc : List (String × VariantData) × List HashCall) :
    probeVariants fs outPath file ((vn, ext) :: tl) acc =
      probeVariants fs outPath file tl
        ((computeVariant fs acc.1 outPath file vn ext none).1,
         acc.2 ++ (computeVariant fs acc.1 outPath file vn ext none).2) := rfl

theorem probeVariants_calls {fs : FS} {outPath file : String}
    {l : List (String × String)} {acc : List (String × VariantData) × List HashCall}
    {c : HashCall} (hc : c ∈ (probeVariants fs outPath file l acc).2) :
    c ∈ acc.2 ∨ ∃ vn ext, (vn, ext) ∈ l ∧ c = HashCall.variant file vn ext := by
  induction l generalizing acc with
  | nil => exact Or.inl hc
  | cons hd tl ih =>
    obtain ⟨vn, ext⟩ := hd
    rw [probeVariants_cons] at hc
    rcases ih hc with hmem | ⟨vn', ext', hmem, rfl⟩
    · rcases List.mem_append.mp hmem with h1 | h1
      · exact Or.inl h1
      · rcases computeVariant_calls fs acc.1 outPath file vn ext none with he | he
        · rw [he] at h1
          simp at h1
        · rw [he] at h1
          simp at h1
          exact Or.inr ⟨vn, ext, List.mem_cons_self _ _, h1⟩
    · exact Or.inr ⟨vn', ext', List.mem_cons_of_mem _ hmem, rfl⟩

theorem probeVariants_lookup_some {fs : FS} {outPath file : String}
    {l : List (String × String)} {acc : List (String × VariantData) × List HashCall}
    {vn : String} {vd : VariantData}
    (h : dictLookup (probeVariants fs outPath file l acc).1 vn = some vd) :
    dictLookup acc.1 vn = some vd ∨
      ∃ ext fsf, (vn, ext) ∈ l ∧
        FS.stat fs (pathJoin outPath (file ++ ext)) = some fsf := by
  induction l generalizing acc with
  | nil => exact Or.inl h
  | cons hd tl ih =>
    obtain ⟨vn', ext'⟩ := hd
    rw [probeVariants_cons] at h
    rcases ih h with hl | ⟨ext, fsf, hmem, hstat⟩
    · cases hstat : FS.stat fs (pathJoin outPath (file ++ ext')) with
      | none =>
        rw [computeVariant_of_missing acc.1 vn' none hstat] at hl
        exact Or.inl hl
      | some fsf =>
        by_cases hvn : vn' = vn
        · subst hvn
          exact Or.inr ⟨ext', fsf, List.mem_cons_self _ _, hstat⟩
        · left
          rw [computeVariant_of_found_fresh acc.1 vn' hstat] at hl
          rw [dictLookup_dictAssign, if_neg hvn] at hl
          exact hl
    · exact Or.inr ⟨ext, fsf, List.mem_cons_of_mem _ hmem, hstat⟩

theorem probeVariants_lookup_none {fs : FS} {outPath file : String}
    {l : List (String × String)} {acc : List (String × VariantData) × List HashCall}
    {vn : String} (hinit : dictLookup acc.1 vn = none)
    (hmiss : ∀ ext, (vn, ext) ∈ l → FS.stat fs (pathJoin outPath (file ++ ext)) = none) :
    dictLookup (probeVariants fs outPath file l acc).1 vn = none := by
  induction l generalizing acc with
  | nil => exact hinit
  | cons hd tl ih =>
    obtain ⟨vn', ext'⟩ := hd
    rw [probeVariants_cons]
    refine ih ?_ (fun ext hext => hmiss ext (List.mem_cons_of_mem _ hext))
    cases hstat : FS.stat fs (pathJoin outPath (file ++ ext')) with
    | none =>
      rw [computeVariant_of_missing acc.1 vn' none hstat]
      exact hinit
    | some fsf =>
      have hvn : vn' ≠ vn := by
        intro hh
        subst hh
        rw [hmiss ext' (List.mem_cons_self _ _)] at hstat
        cases hstat
      rw [computeVariant_of_found_fresh acc.1 vn' hstat]
      simp only
      rw [dictLookup_dictAssign, if_neg hvn]
      exact hinit

theorem probeVariants_lookup_of_not_mem {fs : FS} {outPath file : String}
    {l : List (String × String)} {acc : List (String × VariantData) × List HashCall}
    {vn : String} (hvn : ∀ ext, (vn, ext) ∉ l) :
    dictLookup (probeVariants fs outPath file l acc).1 vn = dictLookup acc.1 vn := by
  induction l generalizing acc with
  | nil => rfl
  | cons hd tl ih =>
    obtain ⟨vn', ext'⟩ := hd
    rw [probeVariants_cons]
    rw [ih (fun ext hext => hvn ext (List.mem_cons_of_mem _ hext))]
    cases hstat : FS.stat fs (pathJoin outPath (file ++ ext')) with
    | none =>
      rw [computeVariant_of_missing acc.1 vn' none hstat]
    | some fsf =>
      have hne : vn' ≠ vn := by
        intro hh
        exact hvn ext' (hh ▸ List.mem_cons_self _ _)
      rw [computeVariant_of_found_fresh acc.1 vn' hstat]
      simp only
      rw [dictLookup_dictAssign, if_neg hne]

/-! ### Lemmas about the loop body and the nested loops -/

theorem pushClassified_of_none {eps : List (String × EntrypointData)}
    {name : String} (ct file : String) (h : dictLookup eps name = none) :
    pushClassified eps name ct file = eps := by
  simp [pushClassified, h]

theorem dictLookup_pushClassified_ne {eps : List (String × EntrypointData)}
    {name n : String} (ct file : String) (h : n ≠ name) :
    dictLookup (pushClassified eps name ct file) n = dictLookup eps n := by
  cases hl : dictLookup eps name with
  | none => rw [pushClassified_of_none ct file hl]
  | some ep =>
    have hne : ¬name = n := fun hh => h hh.symm
    by_cases h1 : ct = "application/javascript"
    · simp [pushClassified, hl, h1, dictLookup_dictAssign, hne]
    · by_cases h2 : ct = "text/css" <;>
        simp [pushClassified, hl, h1, h2, dictLookup_dictAssign, hne]

theorem dictLookup_pushClassified_self {eps : List (String × EntrypointData)}
    {name : String} {ep : EntrypointData} (ct file : String)
    (h : dictLookup eps name = some ep) :
    dictLookup (pushClassified eps name ct file) name =
      some (if ct = "application/javascript" then
              { ep with scripts := ep.scripts ++ [file] }
            else if ct = "text/css" then
              { ep with stylesheets := ep.stylesheets ++ [file] }
            else ep) := by
  by_cases h1 : ct = "application/javascript"
  · simp [pushClassified, h, h1, dictLookup_dictAssign]
  · by_cases h2 : ct = "text/css" <;>
      simp [pushClassified, h, h1, h2, dictLookup_dictAssign]

theorem processFile_of_seen {p : Plugin} {fs : FS} {outPath : String} {st : BuildState}
    {name file : String} {fd : FileData} (h : dictLookup st.files file = some fd) :
    processFile p fs outPath st name file = some { st with
      entrypoints :=
        pushClassified st.entrypoints name (_determineContentType p.fileTypes file) file } := by
  simp [processFile, h]

theorem processFile_of_missing {p : Plugin} {fs : FS} {outPath : String} {st : BuildState}
    {name file : String} (h1 : dictLookup st.files file = none)
    (h2 : FS.stat fs (pathJoin outPath file) = none) :
    processFile p fs outPath st name file = none := by
  simp [processFile, h1, fileSha512, h2]

theorem processFile_of_new {p : Plugin} {fs : FS} {outPath : String} {st : BuildState}
    {name file : String} {stt : FsFile} (h1 : dictLookup st.files file = none)
    (h2 : FS.stat fs (pathJoin outPath file) = some stt) :
    processFile p fs outPath st name file = some
      { entrypoints :=
          pushClassified st.entrypoints name (_determineContentType p.fileTypes file) file,
        files := dictAssign st.files file (buildFileData p fs outPath file stt.hashHex).1,
        calls := st.calls ++
          HashCall.base file :: (buildFileData p fs outPath file stt.hashHex).2 } := by
  simp [processFile, h1, fileSha512, h2]

theorem processFile_cases {p : Plugin} {fs : FS} {outPath : String} {st st' : BuildState}
    {name file : String} (h : processFile p fs outPath st name file = some st') :
    (∃ fd, dictLookup st.files file = some fd ∧
        st' = { st with entrypoints :=
          pushClassified st.entrypoints name (_determineContentType p.fileTypes file) file }) ∨
    (∃ stt, dictLookup st.files file = none ∧
        FS.stat fs (pathJoin outPath file) = some stt ∧
        st' = { entrypoints := pushClassified st.entrypoints name
                  (_determineContentType p.fileTypes file) file,
                files := dictAssign st.files file
                  (buildFileData p fs outPath file stt.hashHex).1,
                calls := st.calls ++ HashCall.base file ::
                  (buildFileData p fs outPath file stt.hashHex).2 }) := by
  cases hseen : dictLookup st.files file with
  | some fd =>
    rw [processFile_of_seen hseen] at h
    exact Or.inl ⟨fd, rfl, (Option.some.inj h).symm⟩
  | none =>
    cases hstat : FS.stat fs (pathJoin outPath file) with
    | none =>
      rw [processFile_of_missing hseen hstat] at h
      cases h
    | some stt =>
      rw [processFile_of_new hseen hstat] at h
      exact Or.inr ⟨stt, rfl, rfl, (Option.some.inj h).symm⟩

theorem buildFileData_identity {p : Plugin} {fs : FS} {outPath file contentHash : String}
    {stt : FsFile} (hstat : FS.stat fs (pathJoin outPath file) = some stt)
    (hid : ∀ ext, ("identity", ext) ∉ p.variants) :
    dictLookup (buildFileData p fs outPath file contentHash).1.variants "identity" =
      some { file := file, size := stt.size,
             hash := if contentHash = "" then stt.hashHex else contentHash } := by
  have hstat' : FS.stat fs (pathJoin outPath (file ++ "")) = some stt := by
    rw [String.append_empty]
    exact hstat
  show dictLookup (probeVariants fs outPath file p.variants
    (computeVariant fs [] outPath file "identity" "" (some contentHash))).1 "identity" = _
  rw [probeVariants_lookup_of_not_mem hid]
  by_cases hch : contentHash = ""
  · subst hch
    rw [computeVariant_of_found_known_empty [] "identity" hstat']
    simp [dictLookup, dictAssign, String.append_empty]
  · rw [computeVariant_of_found_known [] "identity" hstat' hch]
    simp [dictLookup, dictAssign, String.append_empty, hch]

theorem processChunkFiles_nil (p : Plugin) (fs : FS) (outPath name : String)
    (st : BuildState) : processChunkFiles p fs outPath name st [] = some st := rfl

theorem processChunkFiles_cons_none {p : Plugin} {fs : FS} {outPath name file : String}
    {st : BuildState} (rest : List String)
    (hf : processFile p fs outPath st name file = none) :
    processChunkFiles p fs outPath name st (file :: rest) = none := by
  simp [processChunkFiles, hf]

theorem processChunkFiles_cons_some {p : Plugin} {fs : FS} {outPath name file : String}
    {st st₁ : BuildState} (rest : List String)
    (hf : processFile p fs outPath st name file = some st₁) :
    processChunkFiles p fs outPath name st (file :: rest) =
      processChunkFiles p fs outPath name st₁ rest := by
  simp [processChunkFiles, hf]

theorem processChunks_nil (p : Plugin) (fs : FS) (outPath name : String)
    (st : BuildState) : processChunks p fs outPath name st [] = some st := rfl

theorem processChunks_cons_none {p : Plugin} {fs : FS} {outPath name : String}
    {st : BuildState} {chunk : List String} (rest : List (List String))
    (hc : processChunkFiles p fs outPath name st chunk = none) :
    processChunks p fs outPath name st (chunk :: rest) = none := by
  simp [processChunks, hc]

theorem processChunks_cons_some {p : Plugin} {fs : FS} {outPath name : String}
    {st st₁ : BuildState} {chunk : List String} (rest : List (List String))
    (hc : processChunkFiles p fs outPath name st chunk = some st₁) :
    processChunks p fs outPath name st (chunk :: rest) =
      processChunks p fs outPath name st₁ rest := by
  simp [processChunks, hc]

theorem processEntrypoints_nil (p : Plugin) (fs : FS) (outPath : String)
    (st : BuildState) : processEntrypoints p fs outPath st [] = some st := rfl

theorem processEntrypoints_cons_none {p : Plugin} {fs : FS} {outPath name : String}
    {st : BuildState} {chunks : List (List String)}
    (rest : List (String × List (List String)))
    (hc : processChunks p fs outPath name
      { st with entrypoints :=
          dictAssign st.entrypoints name { stylesheets := [], scripts := [] } } chunks = none) :
    processEntrypoints p fs outPath st ((name, chunks) :: rest) = none := by
  simp [processEntrypoints, hc]

theorem processEntrypoints_cons_some {p : Plugin} {fs : FS} {outPath name : String}
    {st st₁ : BuildState} {chunks : List (List String)}
    (rest : List (String × List (List String)))
    (hc : processChunks p fs outPath name
      { st with entrypoints :=
          dictAssign st.entrypoints name { stylesheets := [], scripts := [] } } chunks =
        some st₁) :
    processEntrypoints p fs outPath st ((name, chunks) :: rest) =
      processEntrypoints p fs outPath st₁ rest := by
  simp [processEntrypoints, hc]

theorem buildFileData_contentType (p : Plugin) (fs : FS) (outPath file contentHash : String) :
    (buildFileData p fs outPath file contentHash).1.contentType =
      _determineContentType p.fileTypes file := rfl

theorem buildFileData_sriHash (p : Plugin) (fs : FS) (outPath file contentHash : String) :
    (buildFileData p fs outPath file contentHash).1.sriHash = sriFromHex contentHash := rfl

theorem buildFileData_variants (p : Plugin) (fs : FS) (outPath file contentHash : String) :
    (buildFileData p fs outPath file contentHash).1.variants =
      (probeVariants fs outPath file p.variants
        (computeVariant fs [] outPath file "identity" "" (some contentHash))).1 := rfl

theorem buildFileData_calls (p : Plugin) (fs : FS) (outPath file contentHash : String) :
    (buildFileData p fs outPath file contentHash).2 =
      (probeVariants fs outPath file p.variants
        (computeVariant fs [] outPath file "identity" "" (some contentHash))).2 := rfl

theorem processChunkFiles_pres {p : Plugin} {fs : FS} {outPath name : String}
    (P : BuildState → Prop)
    (hstep : ∀ st nm f st', processFile p fs outPath st nm f = some st' → P st → P st') :
    ∀ {l : List String} {st st' : BuildState},
      processChunkFiles p fs outPath name st l = some st' → P st → P st' := by
  intro l
  induction l with
  | nil =>
    intro st st' h hP
    rw [processChunkFiles_nil] at h
    exact (Option.some.inj h) ▸ hP
  | cons f rest ih =>
    intro st st' h hP
    cases hf : processFile p fs outPath st name f with
    | none =>
      rw [processChunkFiles_cons_none rest hf] at h
      cases h
    | some st₁ =>
      rw [processChunkFiles_cons_some rest hf] at h
      exact ih h (hstep st name f st₁ hf hP)

theorem processChunks_pres {p : Plugin} {fs : FS} {outPath name : String}
    (P : BuildState → Prop)
    (hstep : ∀ st nm f st', processFile p fs outPath st nm f = some st' → P st → P st') :
    ∀ {cl : List (List String)} {st st' : BuildState},
      processChunks p fs outPath name st cl = some st' → P st → P st' := by
  intro cl
  induction cl with
  | nil =>
    intro st st' h hP
    rw [processChunks_nil] at h
    exact (Option.some.inj h) ▸ hP
  | cons chunk rest ih =>
    intro st st' h hP
    cases hc : processChunkFiles p fs outPath name st chunk with
    | none =>
      rw [processChunks_cons_none rest hc] at h
      cases h
    | some st₁ =>
      rw [processChunks_cons_some rest hc] at h
      exact ih h (processChunkFiles_pres P hstep hc hP)

theorem processEntrypoints_pres {p : Plugin} {fs : FS} {outPath : String}
    (P : BuildState → Prop)
    (hstep : ∀ st nm f st', processFile p fs outPath st nm f = some st' → P st → P st')
    (hnew : ∀ st nm, P st →
      P { st with entrypoints :=
            dictAssign st.entrypoints nm { stylesheets := [], scripts := [] } }) :
    ∀ {eps : List (String × List (List String))} {st st' : BuildState},
      processEntrypoints p fs outPath st eps = some st' → P st → P st' := by
  intro eps
  induction eps with
  | nil =>
    intro st st' h hP
    rw [processEntrypoints_nil] at h
    exact (Option.some.inj h) ▸ hP
  | cons hd rest ih =>
    obtain ⟨name, chunks⟩ := hd
    intro st st' h hP
    cases hc : processChunks p fs outPath name
      { st with entrypoints :=
          dictAssign st.entrypoints name { stylesheets := [], scripts := [] } } chunks with
    | none =>
      rw [processEntrypoints_cons_none rest hc] at h
      cases h
    | some st₁ =>
      rw [processEntrypoints_cons_some rest hc] at h
      exact ih h (processChunks_pres P hstep hc (hnew st name hP))

theorem processFile_ensures {p : Plugin} {fs : FS} {outPath : String}
    {st st' : BuildState} {name file : String}
    (h : processFile p fs outPath st name file = some st') :
    (dictLookup st'.files file).isSome := by
  rcases processFile_cases h with ⟨fd, hseen, rfl⟩ | ⟨stt, hseen, hstat, rfl⟩
  · simp [hseen]
  · simp [dictLookup_dictAssign]

theorem processFile_files_mono {p : Plugin} {fs : FS} {outPath : String}
    {st st' : BuildState} {name file g : String}
    (h : processFile p fs outPath st name file = some st')
    (hg : (dictLookup st.files g).isSome) : (dictLookup st'.files g).isSome := by
  rcases processFile_cases h with ⟨fd, hseen, rfl⟩ | ⟨stt, hseen, hstat, rfl⟩
  · simpa using hg
  · simpa using dictLookup_isSome_dictAssign file (buildFileData p fs outPath file stt.hashHex).1 hg

theorem processFile_files_origin {p : Plugin} {fs : FS} {outPath : String}
    {st st' : BuildState} {name file g : String}
    (h : processFile p fs outPath st name file = some st')
    (hg : (dictLookup st'.files g).isSome) :
    (dictLookup st.files g).isSome ∨ g = file := by
  rcases processFile_cases h with ⟨fd, hseen, rfl⟩ | ⟨stt, hseen, hstat, rfl⟩
  · exact Or.inl (by simpa using hg)
  · by_cases hf : file = g
    · exact Or.inr hf.symm
    · left
      simp only at hg
      rw [dictLookup_dictAssign, if_neg hf] at hg
      exact hg

theorem processChunkFiles_ensures_mem {p : Plugin} {fs : FS} {outPath name f : String}
    {l : List String} {st st' : BuildState}
    (h : processChunkFiles p fs outPath name st l = some st') (hf : f ∈ l) :
    (dictLookup st'.files f).isSome := by
  induction l generalizing st with
  | nil => cases hf
  | cons g rest ih =>
    cases hg : processFile p fs outPath st name g with
    | none =>
      rw [processChunkFiles_cons_none rest hg] at h
      cases h
    | some st₁ =>
      rw [processChunkFiles_cons_some rest hg] at h
      rcases List.mem_cons.mp hf with rfl | hf'
      · exact processChunkFiles_pres (fun s => (dictLookup s.files f).isSome)
          (fun s nm f' s' hs hP => processFile_files_mono hs hP) h (processFile_ensures hg)
      · exact ih h hf'

theorem processChunks_ensures_mem {p : Plugin} {fs : FS} {outPath name f : String}
    {cl : List (List String)} {st st' : BuildState}
    (h : processChunks p fs outPath name st cl = some st')
    (hf : ∃ chunk ∈ cl, f ∈ chunk) :
    (dictLookup st'.files f).isSome := by
  induction cl generalizing st with
  | nil =>
    obtain ⟨c, hc, _⟩ := hf
    cases hc
  | cons chunk rest ih =>
    cases hc : processChunkFiles p fs outPath name st chunk with
    | none =>
      rw [processChunks_cons_none rest hc] at h
      cases h
    | some st₁ =>
      rw [processChunks_cons_some rest hc] at h
      obtain ⟨c, hcmem, hfc⟩ := hf
      rcases List.mem_cons.mp hcmem with rfl | hcmem'
      · exact processChunks_pres (fun s => (dictLookup s.files f).isSome)
          (fun s nm f' s' hs hP => processFile_files_mono hs hP) h
          (processChunkFiles_ensures_mem hc hfc)
      · exact ih h ⟨c, hcmem', hfc⟩

theorem processEntrypoints_ensures_mem {p : Plugin} {fs : FS} {outPath f : String}
    {eps : List (String × List (List String))} {st st' : BuildState}
    (h : processEntrypoints p fs outPath st eps = some st')
    (hf : ∃ ep ∈ eps, ∃ chunk ∈ ep.2, f ∈ chunk) :
    (dictLookup st'.files f).isSome := by
  induction eps generalizing st with
  | nil =>
    obtain ⟨ep, hep, _⟩ := hf
    cases hep
  | cons hd rest ih =>
    obtain ⟨name, chunks⟩ := hd
    cases hc : processChunks p fs outPath name
      { st with entrypoints :=
          dictAssign st.entrypoints name { stylesheets := [], scripts := [] } } chunks with
    | none =>
      rw [processEntrypoints_cons_none rest hc] at h
      cases h
    | some st₁ =>
      rw [processEntrypoints_cons_some rest hc] at h
      obtain ⟨ep, hepmem, hin⟩ := hf
      rcases List.mem_cons.mp hepmem with rfl | hepmem'
      · exact processEntrypoints_pres (fun s => (dictLookup s.files f).isSome)
          (fun s nm f' s' hs hP => processFile_files_mono hs hP)
          (fun s nm hP => hP) h (processChunks_ensures_mem hc hin)
      · exact ih h ⟨ep, hepmem', hin⟩

theorem processChunkFiles_files_origin {p : Plugin} {fs : FS} {outPath name g : String}
    {l : List String} {st st' : BuildState}
    (h : processChunkFiles p fs outPath name st l = some st')
    (hg : (dictLookup st'.files g).isSome) :
    (dictLookup st.files g).isSome ∨ g ∈ l := by
  induction l generalizing st with
  | nil =>
    rw [processChunkFiles_nil] at h
    exact Or.inl ((Option.some.inj h) ▸ hg)
  | cons f rest ih =>
    cases hf : processFile p fs outPath st name f with
    | none =>
      rw [processChunkFiles_cons_none rest hf] at h
      cases h
    | some st₁ =>
      rw [processChunkFiles_cons_some rest hf] at h
      rcases ih h with h1 | h1
      · rcases processFile_files_origin hf h1 with h2 | h2
        · exact Or.inl h2
        · exact Or.inr (h2 ▸ List.mem_cons_self _ _)
      · exact Or.inr (List.mem_cons_of_mem _ h1)

theorem processChunks_files_origin {p : Plugin} {fs : FS} {outPath name g : String}
    {cl : List (List String)} {st st' : BuildState}
    (h : processChunks p fs outPath name st cl = some st')
    (hg : (dictLookup st'.files g).isSome) :
    (dictLookup st.files g).isSome ∨ ∃ chunk ∈ cl, g ∈ chunk := by
  induction cl generalizing st with
  | nil =>
    rw [processChunks_nil] at h
    exact Or.inl ((Option.some.inj h) ▸ hg)
  | cons chunk rest ih =>
    cases hc : processChunkFiles p fs outPath name st chunk with
    | none =>
      rw [processChunks_cons_none rest hc] at h
      cases h
    | some st₁ =>
      rw [processChunks_cons_some rest hc] at h
      rcases ih h with h1 | ⟨c, hcmem, hgc⟩
      · rcases processChunkFiles_files_origin hc h1 with h2 | h2
        · exact Or.inl h2
        · exact Or.inr ⟨chunk, List.mem_cons_self _ _, h2⟩
      · exact Or.inr ⟨c, List.mem_cons_of_mem _ hcmem, hgc⟩

theorem processEntrypoints_files_origin {p : Plugin} {fs : FS} {outPath g : String}
    {eps : List (String × List (List String))} {st st' : BuildState}
    (h : processEntrypoints p fs outPath st eps = some st')
    (hg : (dictLookup st'.files g).isSome) :
    (dictLookup st.files g).isSome ∨ ∃ ep ∈ eps, ∃ chunk ∈ ep.2, g ∈ chunk := by
  induction eps generalizing st with
  | nil =>
    rw [processEntrypoints_nil] at h
    exact Or.inl ((Option.some.inj h) ▸ hg)
  | cons hd rest ih =>
    obtain ⟨name, chunks⟩ := hd
    cases hc : processChunks p fs outPath name
      { st with entrypoints :=
          dictAssign st.entrypoints name { stylesheets := [], scripts := [] } } chunks with
    | none =>
      rw [processEntrypoints_cons_none rest hc] at h
      cases h
    | some st₁ =>
      rw [processEntrypoints_cons_some rest hc] at h
      rcases ih h with h1 | ⟨ep, hepmem, hin⟩
      · rcases processChunks_files_origin hc h1 with h2 | ⟨c, hcmem, hgc⟩
        · exact Or.inl h2
        · exact Or.inr ⟨(name, chunks), List.mem_cons_self _ _, c, hcmem, hgc⟩
      · exact Or.inr ⟨ep, List.mem_cons_of_mem _ hepmem, hin⟩

theorem mentionedB_iff (stats : Stats) (f : String) :
    mentionedB stats f = true ↔
      ∃ ep ∈ stats.entrypoints, ∃ chunk ∈ ep.2, f ∈ chunk := by
  simp [mentionedB, List.any_eq_true]

theorem computeVariant_empty_lookup (fs : FS) (outPath file ext' vName : String)
    (kh : Option String) {vn : String} (hvn : vn ≠ vName) :
    dictLookup (computeVariant fs [] outPath file vName ext' kh).1 vn = none := by
  cases hstat : FS.stat fs (pathJoin outPath (file ++ ext')) with
  | none =>
    rw [computeVariant_of_missing [] vName kh hstat]
    rfl
  | some stt =>
    have hne : ¬vName = vn := fun hh => hvn hh.symm
    cases kh with
    | none =>
      rw [computeVariant_of_found_fresh [] vName hstat]
      simp [dictAssign, dictLookup, hne]
    | some k =>
      by_cases hk : k = ""
      · subst hk
        rw [computeVariant_of_found_known_empty [] vName hstat]
        simp [dictAssign, dictLookup, hne]
      · rw [computeVariant_of_found_known [] vName hstat hk]
        simp [dictAssign, dictLookup, hne]

theorem dictKeys_nodup_mem_unique {α : Type} {l : List (String × α)}
    (h : (dictKeys l).Nodup) {k : String} {a b : α}
    (ha : (k, a) ∈ l) (hb : (k, b) ∈ l) : a = b := by
  induction l with
  | nil => cases ha
  | cons hd tl ih =>
    obtain ⟨k₀, v₀⟩ := hd
    simp only [dictKeys, List.map_cons, List.nodup_cons] at h
    rcases List.mem_cons.mp ha with ha1 | ha1 <;> rcases List.mem_cons.mp hb with hb1 | hb1
    · rw [Prod.mk.injEq] at ha1 hb1
      rw [ha1.2, hb1.2]
    · exfalso
      rw [Prod.mk.injEq] at ha1
      apply h.1
      rw [← ha1.1]
      exact List.mem_map_of_mem Prod.fst hb1
    · exfalso
      rw [Prod.mk.injEq] at hb1
      apply h.1
      rw [← hb1.1]
      exact List.mem_map_of_mem Prod.fst ha1
    · exact ih h.2 ha1 hb1

theorem processFile_pres_count {p : Plugin} {fs : FS} {outPath : String} :
    ∀ (st : BuildState) (nm f : String) (st' : BuildState),
      processFile p fs outPath st nm f = some st' →
      (∀ g, countBase st.calls g = if (dictLookup st.files g).isSome then 1 else 0) →
      (∀ g, countBase st'.calls g = if (dictLookup st'.files g).isSome then 1 else 0) := by
  intro st nm f st' h hP g
  rcases processFile_cases h with ⟨fd, hseen, rfl⟩ | ⟨stt, hseen, hstat, rfl⟩
  · simpa using hP g
  · have hvar : countBase (buildFileData p fs outPath f stt.hashHex).2 g = 0 := by
      apply countBase_eq_zero
      intro c hc g'
      rw [buildFileData_calls] at hc
      rcases probeVariants_calls hc with h1 | ⟨vn, ext, hmem, rfl⟩
      · rcases computeVariant_calls fs [] outPath f "identity" "" (some stt.hashHex)
          with he | he
        · rw [he] at h1
          cases h1
        · rw [he] at h1
          have hceq : c = HashCall.variant f "identity" "" := by simpa using h1
          subst hceq
          simp
      · simp
    show countBase
      (st.calls ++ HashCall.base f :: (buildFileData p fs outPath f stt.hashHex).2) g = _
    rw [countBase_append]
    have hcons : countBase
        (HashCall.base f :: (buildFileData p fs outPath f stt.hashHex).2) g =
        if f = g then 1 else 0 := by
      show (if f = g then 1 else 0) +
        countBase (buildFileData p fs outPath f stt.hashHex).2 g = _
      rw [hvar, Nat.add_zero]
    rw [hcons, hP g]
    by_cases hg : f = g
    · subst hg
      rw [hseen]
      simp [dictLookup_dictAssign]
    · simp only
      rw [dictLookup_dictAssign]
      simp [hg]

theorem buildManifest_count {p : Plugin} {fs : FS} {stats : Stats} {res : BuildState}
    (h : buildManifest p fs stats = some res) :
    ∀ g, countBase res.calls g = if (dictLookup res.files g).isSome then 1 else 0 := by
  have h' : processEntrypoints p fs stats.outputPath
      { entrypoints := [], files := [], calls := [] } stats.entrypoints = some res := h
  refine processEntrypoints_pres
    (fun s => ∀ g, countBase s.calls g = if (dictLookup s.files g).isSome then 1 else 0)
    processFile_pres_count (fun s nm hP g => by simpa using hP g) h' ?_
  intro g
  simp [countBase, dictLookup]

/-! ### Claims C4 and C10: classifier and configuration merging -/

/-- C4: for every filename, the classifier returns the content type of the
first pattern in declaration order that matches, and
`application/octet-stream` when none matches; with the default pattern
list, `app.js` classifies as `application/javascript`, `app.css` as
`text/css`, `app.js.map` as the source-map type `text/plain` (not
JavaScript), `logo.svg` as `image/svg+xml`, and `data.bin` as the
fallback. -/
theorem c4_classifier_first_match :
    (∀ fileTypes file, _determineContentType fileTypes file = classifierSpec fileTypes file) ∧
    _determineContentType wPlugin.fileTypes "app.js" = "application/javascript" ∧
    _determineContentType wPlugin.fileTypes "app.css" = "text/css" ∧
    _determineContentType wPlugin.fileTypes "app.js.map" = "text/plain" ∧
    _determineContentType wPlugin.fileTypes "logo.svg" = "image/svg+xml" ∧
    _determineContentType wPlugin.fileTypes "data.bin" = "application/octet-stream" := by
  refine ⟨?_, by decide, by decide, by decide, by decide, by decide⟩
  intro fileTypes file
  induction fileTypes with
  | nil => rfl
  | cons hd tl ih =>
    obtain ⟨m, t⟩ := hd
    by_cases h : t file = true
    · have h1 : _determineContentType ((m, t) :: tl) file = m := by
        simp [_determineContentType, h]
      have h2 : classifierSpec ((m, t) :: tl) file = m := by
        unfold classifierSpec
        rw [@List.find?_cons_of_pos _ (fun kv => kv.2 file) (m, t) tl h]
      rw [h1, h2]
    · have h1 : _determineContentType ((m, t) :: tl) file = _determineContentType tl file := by
        simp [_determineContentType, h]
      have h2 : classifierSpec ((m, t) :: tl) file = classifierSpec tl file := by
        unfold classifierSpec
        rw [@List.find?_cons_of_neg _ (fun kv => kv.2 file) (m, t) tl (by simpa using h)]
      rw [h1, h2, ih]

/-- C10: entries of `additionalFileTypes` are merged into the effective
pattern list by key assignment — a new key is appended after the existing
entries, while an existing key keeps its position and has its matcher
replaced (lookup prefers the `additionalFileTypes` value). -/
theorem c10_additionalFileTypes_merge (o : PluginOptions)
    (add : List (String × FilenameTest))
    (hadd : o.additionalFileTypes = some add)
    (hnodup : (dictKeys add).Nodup) :
    dictKeys (mkPlugin o).fileTypes =
      dictKeys (o.fileTypes.getD defaultFileTypes) ++
        (dictKeys add).filter
          (fun k => decide (k ∉ dictKeys (o.fileTypes.getD defaultFileTypes))) ∧
    ∀ k, dictLookup (mkPlugin o).fileTypes k =
      (dictLookup add k).or (dictLookup (o.fileTypes.getD defaultFileTypes) k) := by
  have hft : (mkPlugin o).fileTypes = objectAssign (o.fileTypes.getD defaultFileTypes) add := by
    simp [mkPlugin, hadd]
  constructor
  · rw [hft]
    exact dictKeys_objectAssign _ _ hnodup
  · intro k
    rw [hft]
    exact dictLookup_objectAssign _ _ _ hnodup

/-- Witness for C10: a two-entry `additionalFileTypes` that overrides the
JavaScript matcher and appends a Markdown key, evaluated on the default
pattern list. -/
theorem c10_additionalFileTypes_merge_witness :
    wOptionsAdd.additionalFileTypes = some wAdd ∧
    (dictKeys wAdd).Nodup ∧
    (dictKeys (mkPlugin wOptionsAdd).fileTypes =
      dictKeys (wOptionsAdd.fileTypes.getD defaultFileTypes) ++
        (dictKeys wAdd).filter
          (fun k => decide (k ∉ dictKeys (wOptionsAdd.fileTypes.getD defaultFileTypes))) ∧
    ∀ k, dictLookup (mkPlugin wOptionsAdd).fileTypes k =
      (dictLookup wAdd k).or
        (dictLookup (wOptionsAdd.fileTypes.getD defaultFileTypes) k)) :=
  ⟨rfl, by decide, c10_additionalFileTypes_merge wOptionsAdd wAdd rfl (by decide)⟩

/-! ### Claims about the whole build: C1, C6, C8 -/

/-- C1: in a successful manifest build, `fileSha512` is invoked on the
uncompressed base file of a filename exactly once if the build graph
mentions the filename (no matter how many entry points or chunks reference
it), and never otherwise. -/
theorem c1_base_hash_once {p : Plugin} {fs : FS} {stats : Stats} {res : BuildState}
    (h : buildManifest p fs stats = some res) (f : String) :
    countBase res.calls f = if mentionedB stats f = true then 1 else 0 := by
  have h' : processEntrypoints p fs stats.outputPath
      { entrypoints := [], files := [], calls := [] } stats.entrypoints = some res := h
  have hcount := buildManifest_count h f
  have hiff : (dictLookup res.files f).isSome = true ↔ mentionedB stats f = true := by
    constructor
    · intro hs
      rcases processEntrypoints_files_origin h' hs with h1 | h1
      · simp [dictLookup] at h1
      · exact (mentionedB_iff stats f).mpr h1
    · intro hm
      exact processEntrypoints_ensures_mem h' ((mentionedB_iff stats f).mp hm)
  rw [hcount]
  by_cases hm : mentionedB stats f = true
  · simp [hm, hiff.mpr hm]
  · have hns : ¬(dictLookup res.files f).isSome = true := fun hh => hm (hiff.mp hh)
    simp [hm, hns]

/-- Witness for C1: `shared.js` is referenced by both entry points of the
fixture graph, and its base hash is computed exactly once. -/
theorem c1_base_hash_once_witness :
    buildManifest wPlugin wFs wStats = some wBuild ∧
    countBase wBuild.calls "shared.js" =
      if mentionedB wStats "shared.js" = true then 1 else 0 :=
  ⟨rfl, @c1_base_hash_once wPlugin wFs wStats wBuild rfl "shared.js"⟩

theorem pushClassified_origin {eps : List (String × EntrypointData)}
    {name n : String} {ep' : EntrypointData} (ct file : String)
    (h : dictLookup (pushClassified eps name ct file) n = some ep')
    {g : String} (hg : g ∈ ep'.scripts ∨ g ∈ ep'.stylesheets) :
    (∃ ep, dictLookup eps n = some ep ∧ (g ∈ ep.scripts ∨ g ∈ ep.stylesheets)) ∨
      g = file := by
  by_cases hn : n = name
  · subst hn
    cases hl : dictLookup eps n with
    | none =>
      rw [pushClassified_of_none ct file hl, hl] at h
      cases h
    | some ep =>
      rw [dictLookup_pushClassified_self ct file hl] at h
      have heq := (Option.some.inj h).symm
      by_cases h1 : ct = "application/javascript"
      · rw [if_pos h1] at heq
        subst heq
        rcases hg with hgs | hgs
        · have hgs' : g ∈ ep.scripts ++ [file] := hgs
          rcases List.mem_append.mp hgs' with h2 | h2
          · exact Or.inl ⟨ep, rfl, Or.inl h2⟩
          · exact Or.inr (by simpa using h2)
        · exact Or.inl ⟨ep, rfl, Or.inr hgs⟩
      · rw [if_neg h1] at heq
        by_cases h2 : ct = "text/css"
        · rw [if_pos h2] at heq
          subst heq
          rcases hg with hgs | hgs
          · exact Or.inl ⟨ep, rfl, Or.inl hgs⟩
          · have hgs' : g ∈ ep.stylesheets ++ [file] := hgs
            rcases List.mem_append.mp hgs' with h3 | h3
            · exact Or.inl ⟨ep, rfl, Or.inr h3⟩
            · exact Or.inr (by simpa using h3)
        · rw [if_neg h2] at heq
          exact Or.inl ⟨ep, rfl, heq ▸ hg⟩
  · rw [dictLookup_pushClassified_ne ct file hn] at h
    exact Or.inl ⟨ep', h, hg⟩

theorem processFile_pres_ep_files {p : Plugin} {fs : FS} {outPath : String} :
    ∀ (st : BuildState) (nm f : String) (st' : BuildState),
      processFile p fs outPath st nm f = some st' →
      (∀ n ep, dictLookup st.entrypoints n = some ep →
        ∀ g, (g ∈ ep.scripts ∨ g ∈ ep.stylesheets) → (dictLookup st.files g).isSome) →
      (∀ n ep, dictLookup st'.entrypoints n = some ep →
        ∀ g, (g ∈ ep.scripts ∨ g ∈ ep.stylesheets) → (dictLookup st'.files g).isSome) := by
  intro st nm f st' h hP n ep' hep' g hg
  have hent : st'.entrypoints =
      pushClassified st.entrypoints nm (_determineContentType p.fileTypes f) f := by
    rcases processFile_cases h with ⟨fd, _, rfl⟩ | ⟨stt, _, _, rfl⟩ <;> rfl
  rw [hent] at hep'
  rcases pushClassified_origin _ _ hep' hg with ⟨ep, hepold, hgold⟩ | rfl
  · exact processFile_files_mono h (hP n ep hepold g hgold)
  · exact processFile_ensures h

/-- C6: in the produced manifest, every filename in any entrypoint's
`scripts` or `stylesheets` sequence is a key of the `files` mapping. -/
theorem c6_lists_subset_files {p : Plugin} {fs : FS} {stats : Stats} {res : BuildState}
    (h : buildManifest p fs stats = some res) :
    ∀ name ep, dictLookup res.entrypoints name = some ep →
      ∀ f, (f ∈ ep.scripts ∨ f ∈ ep.stylesheets) →
        (dictLookup res.files f).isSome := by
  have h' : processEntrypoints p fs stats.outputPath
      { entrypoints := [], files := [], calls := [] } stats.entrypoints = some res := h
  refine processEntrypoints_pres
    (fun s => ∀ n ep, dictLookup s.entrypoints n = some ep →
      ∀ g, (g ∈ ep.scripts ∨ g ∈ ep.stylesheets) → (dictLookup s.files g).isSome)
    processFile_pres_ep_files ?_ h' ?_
  · intro s nm hP n ep' hep' g hg
    simp only at hep'
    rw [dictLookup_dictAssign] at hep'
    by_cases hnm : nm = n
    · rw [if_pos hnm] at hep'
      have heq := (Option.some.inj hep').symm
      subst heq
      rcases hg with hg | hg <;> simp at hg
    · rw [if_neg hnm] at hep'
      exact hP n ep' hep' g hg
  · intro n ep hep
    simp [dictLookup] at hep

/-- Witness for C6: in the fixture build, `shared.js` is listed in
entrypoint `one`'s scripts and is a key of the files mapping. -/
theorem c6_lists_subset_files_witness :
    buildManifest wPlugin wFs wStats = some wBuild ∧
    dictLookup wBuild.entrypoints "one" = some wEpOne ∧
    "shared.js" ∈ wEpOne.scripts ∧
    (dictLookup wBuild.files "shared.js").isSome = true :=
  ⟨rfl, rfl, by decide,
   @c6_lists_subset_files wPlugin wFs wStats wBuild rfl "one" wEpOne rfl "shared.js" (Or.inl (by decide))⟩

theorem processFile_pres_absent {p : Plugin} {fs : FS} {outPath f : String}
    (hmiss : FS.stat fs (pathJoin outPath f) = none) :
    ∀ (st : BuildState) (nm file : String) (st' : BuildState),
      processFile p fs outPath st nm file = some st' →
      dictLookup st.files f = none → dictLookup st'.files f = none := by
  intro st nm file st' h habs
  rcases processFile_cases h with ⟨fd, hseen, rfl⟩ | ⟨stt, hseen, hstat, rfl⟩
  · simpa using habs
  · by_cases hf : file = f
    · subst hf
      rw [hstat] at hmiss
      cases hmiss
    · simp only
      rw [dictLookup_dictAssign, if_neg hf]
      exact habs

theorem processChunkFiles_none_of_mem {p : Plugin} {fs : FS} {outPath name f : String}
    (hmiss : FS.stat fs (pathJoin outPath f) = none) :
    ∀ {l : List String} {st : BuildState}, f ∈ l → dictLookup st.files f = none →
      processChunkFiles p fs outPath name st l = none := by
  intro l
  induction l with
  | nil =>
    intro st hmem habs
    cases hmem
  | cons g rest ih =>
    intro st hmem habs
    cases hg : processFile p fs outPath st name g with
    | none => exact processChunkFiles_cons_none rest hg
    | some st₁ =>
      rcases List.mem_cons.mp hmem with rfl | hmem'
      · exfalso
        rw [processFile_of_missing habs hmiss] at hg
        cases hg
      · rw [processChunkFiles_cons_some rest hg]
        exact ih hmem' (processFile_pres_absent hmiss st name g st₁ hg habs)

theorem processChunks_none_of_mem {p : Plugin} {fs : FS} {outPath name f : String}
    (hmiss : FS.stat fs (pathJoin outPath f) = none) :
    ∀ {cl : List (List String)} {st : BuildState},
      (∃ chunk ∈ cl, f ∈ chunk) → dictLookup st.files f = none →
      processChunks p fs outPath name st cl = none := by
  intro cl
  induction cl with
  | nil =>
    intro st hmem habs
    obtain ⟨c, hc, _⟩ := hmem
    cases hc
  | cons chunk rest ih =>
    intro st hmem habs
    obtain ⟨c, hcmem, hfc⟩ := hmem
    rcases List.mem_cons.mp hcmem with rfl | hcmem'
    · exact processChunks_cons_none rest (processChunkFiles_none_of_mem hmiss hfc habs)
    · cases hc : processChunkFiles p fs outPath name st chunk with
      | none => exact processChunks_cons_none rest hc
      | some st₁ =>
        rw [processChunks_cons_some rest hc]
        exact ih ⟨c, hcmem', hfc⟩
          (processChunkFiles_pres (fun s => dictLookup s.files f = none)
            (fun s nm file s' hs hab => processFile_pres_absent hmiss s nm file s' hs hab)
            hc habs)

theorem processEntrypoints_none_of_mentioned {p : Plugin} {fs : FS} {outPath f : String}
    (hmiss : FS.stat fs (pathJoin outPath f) = none) :
    ∀ {eps : List (String × List (List String))} {st : BuildState},
      (∃ ep ∈ eps, ∃ chunk ∈ ep.2, f ∈ chunk) → dictLookup st.files f = none →
      processEntrypoints p fs outPath st eps = none := by
  intro eps
  induction eps with
  | nil =>
    intro st hmem habs
    obtain ⟨ep, hep, _⟩ := hmem
    cases hep
  | cons hd rest ih =>
    obtain ⟨name, chunks⟩ := hd
    intro st hmem habs
    obtain ⟨ep, hepmem, hin⟩ := hmem
    rcases List.mem_cons.mp hepmem with rfl | hepmem'
    · exact processEntrypoints_cons_none rest (processChunks_none_of_mem hmiss hin habs)
    · cases hc : processChunks p fs outPath name
        { st with entrypoints :=
            dictAssign st.entrypoints name { stylesheets := [], scripts := [] } } chunks with
      | none => exact processEntrypoints_cons_none rest hc
      | some st₁ =>
        rw [processEntrypoints_cons_some rest hc]
        exact ih ⟨ep, hepmem', hin⟩
          (processChunks_pres (fun s => dictLookup s.files f = none)
            (fun s nm file s' hs hab => processFile_pres_absent hmiss s nm file s' hs hab)
            hc habs)

/-- C8: if the build graph mentions a file whose base path cannot be read,
the failure propagates out of the `done`-hook callback and no manifest is
written for that build. -/
theorem c8_missing_base_aborts {p : Plugin} {fs : FS} {stats : Stats} {f : String}
    (hm : mentionedB stats f = true)
    (hmiss : FS.stat fs (pathJoin stats.outputPath f) = none) :
    runPlugin p fs stats = none := by
  have hbuild : buildManifest p fs stats = none :=
    processEntrypoints_none_of_mentioned hmiss ((mentionedB_iff stats f).mp hm) rfl
  simp [runPlugin, hbuild]

/-- Witness for C8: the graph mentions `missing.js`, which is absent from
the fixture output directory, so the run produces nothing. -/
theorem c8_missing_base_aborts_witness :
    mentionedB w8Stats "missing.js" = true ∧
    FS.stat wFs (pathJoin w8Stats.outputPath "missing.js") = none ∧
    runPlugin wPlugin wFs w8Stats = none :=
  ⟨by decide, by decide, @c8_missing_base_aborts wPlugin wFs w8Stats "missing.js" (by decide) (by decide)⟩

/-! ### Claims about individual file records: C2, C3, C7 -/

theorem processFile_pres_origin {p : Plugin} {fs : FS} {outPath : String} :
    ∀ (st : BuildState) (nm f : String) (st' : BuildState),
      processFile p fs outPath st nm f = some st' →
      (∀ g fd, dictLookup st.files g = some fd →
        ∃ stt, FS.stat fs (pathJoin outPath g) = some stt ∧
          fd = (buildFileData p fs outPath g stt.hashHex).1) →
      (∀ g fd, dictLookup st'.files g = some fd →
        ∃ stt, FS.stat fs (pathJoin outPath g) = some stt ∧
          fd = (buildFileData p fs outPath g stt.hashHex).1) := by
  intro st nm f st' h hP g fd hg
  rcases processFile_cases h with ⟨fd', hseen, rfl⟩ | ⟨stt, hseen, hstat, rfl⟩
  · exact hP g fd (by simpa using hg)
  · simp only at hg
    rw [dictLookup_dictAssign] at hg
    by_cases hf : f = g
    · subst hf
      rw [if_pos rfl] at hg
      exact ⟨stt, hstat, (Option.some.inj hg).symm⟩
    · rw [if_neg hf] at hg
      exact hP g fd hg

/-- Every `FileRecord` of a successful build was produced by the
first-encounter branch: its base file was stat-able and the record is
exactly `buildFileData` of that file's stored digest. -/
theorem buildManifest_files_data {p : Plugin} {fs : FS} {stats : Stats} {res : BuildState}
    (h : buildManifest p fs stats = some res) :
    ∀ g fd, dictLookup res.files g = some fd →
      ∃ stt, FS.stat fs (pathJoin stats.outputPath g) = some stt ∧
        fd = (buildFileData p fs stats.outputPath g stt.hashHex).1 := by
  have h' : processEntrypoints p fs stats.outputPath
      { entrypoints := [], files := [], calls := [] } stats.entrypoints = some res := h
  refine processEntrypoints_pres
    (fun s => ∀ g fd, dictLookup s.files g = some fd →
      ∃ stt, FS.stat fs (pathJoin stats.outputPath g) = some stt ∧
        fd = (buildFileData p fs stats.outputPath g stt.hashHex).1)
    processFile_pres_origin (fun s nm hP g fd hg => hP g fd hg) h' ?_
  intro g fd hg
  simp [dictLookup] at hg

theorem processFile_pres_no_id_call {p : Plugin} {fs : FS} {outPath : String}
    (hid : ∀ ext, ("identity", ext) ∉ p.variants)
    (hne : ∀ pr ∈ fs, FsFile.hashHex pr.2 ≠ "") :
    ∀ (st : BuildState) (nm f : String) (st' : BuildState),
      processFile p fs outPath st nm f = some st' →
      (∀ g, HashCall.variant g "identity" "" ∉ st.calls) →
      (∀ g, HashCall.variant g "identity" "" ∉ st'.calls) := by
  intro st nm f st' h hP g hmem
  rcases processFile_cases h with ⟨fd, hseen, rfl⟩ | ⟨stt, hseen, hstat, rfl⟩
  · exact hP g (by simpa using hmem)
  · simp only at hmem
    rcases List.mem_append.mp hmem with h1 | h1
    · exact hP g h1
    · rcases List.mem_cons.mp h1 with h2 | h2
      · cases h2
      · rw [buildFileData_calls] at h2
        rcases probeVariants_calls h2 with h3 | ⟨vn, ext, hmemv, heq⟩
        · have hch : stt.hashHex ≠ "" :=
            hne _ (dictLookup_mem (show dictLookup fs (pathJoin outPath f) = some stt from hstat))
          have hstat' : FS.stat fs (pathJoin outPath (f ++ "")) = some stt := by
            rw [String.append_empty]
            exact hstat
          rw [computeVariant_of_found_known [] "identity" hstat' hch] at h3
          cases h3
        · injection heq with hg1 hg2 hg3
          exact hid ext (hg2 ▸ hg3 ▸ hmemv)

theorem buildManifest_no_identity_recompute {p : Plugin} {fs : FS} {stats : Stats}
    {res : BuildState} (h : buildManifest p fs stats = some res)
    (hid : ∀ ext, ("identity", ext) ∉ p.variants)
    (hne : ∀ pr ∈ fs, FsFile.hashHex pr.2 ≠ "") :
    ∀ g, HashCall.variant g "identity" "" ∉ res.calls := by
  have h' : processEntrypoints p fs stats.outputPath
      { entrypoints := [], files := [], calls := [] } stats.entrypoints = some res := h
  refine processEntrypoints_pres
    (fun s => ∀ g, HashCall.variant g "identity" "" ∉ s.calls)
    (processFile_pres_no_id_call hid hne) (fun s nm hP g => hP g) h' ?_
  intro g hmem
  cases hmem

/-- C2, counterexample to the claim as stated: in the fixture build the
identity variant's hash is the raw SHA-512 hex digest, while the file's
`sriHash` is the SRI string `sha512-<base64>`; the two strings are not
byte-identical. -/
theorem c2_counterexample :
    buildManifest wPlugin wFs wStats = some wBuild ∧
    dictLookup wBuild.files "shared.js" = some wSharedFd ∧
    (dictLookup wSharedFd.variants "identity").map VariantData.hash = some hexA ∧
    wSharedFd.sriHash ≠ hexA :=
  ⟨rfl, rfl, rfl, by decide⟩

/-- C2 as amended: the identity variant's hash is the raw hex digest that
was computed once for the base file, reused as-is (no second `fileSha512`
call for the identity variant), and the `sriHash` is derived from that
same digest via `ssri.fromHex` — not byte-identical to it. -/
theorem c2_identity_hash_reused {p : Plugin} {fs : FS} {stats : Stats} {res : BuildState}
    {file : String} {fd : FileData}
    (h : buildManifest p fs stats = some res)
    (hf : dictLookup res.files file = some fd)
    (hid : (p.variants.all fun pr => pr.1 != "identity") = true)
    (hne : (fs.all fun pr => pr.2.hashHex != "") = true) :
    ∃ contentHash, fileSha512 fs (pathJoin stats.outputPath file) = some contentHash ∧
      (dictLookup fd.variants "identity").map VariantData.hash = some contentHash ∧
      fd.sriHash = sriFromHex contentHash ∧
      HashCall.variant file "identity" "" ∉ res.calls := by
  have hid' : ∀ ext, ("identity", ext) ∉ p.variants := by
    intro ext hmem
    have := List.all_eq_true.mp hid _ hmem
    simp at this
  have hne' : ∀ pr ∈ fs, FsFile.hashHex pr.2 ≠ "" := by
    intro pr hmem
    have := List.all_eq_true.mp hne _ hmem
    simpa using this
  obtain ⟨stt, hstat, rfl⟩ := buildManifest_files_data h file fd hf
  have hch : stt.hashHex ≠ "" :=
    hne' _ (dictLookup_mem
      (show dictLookup fs (pathJoin stats.outputPath file) = some stt from hstat))
  refine ⟨stt.hashHex, ?_, ?_, ?_, ?_⟩
  · simp [fileSha512, hstat]
  · rw [buildFileData_identity hstat hid']
    simp [hch]
  · exact buildFileData_sriHash p fs stats.outputPath file stt.hashHex
  · exact buildManifest_no_identity_recompute h hid' hne' file

/-- Witness for the amended C2, at the fixture build's `shared.js`. -/
theorem c2_identity_hash_reused_witness :
    buildManifest wPlugin wFs wStats = some wBuild ∧
    dictLookup wBuild.files "shared.js" = some wSharedFd ∧
    (wPlugin.variants.all fun pr => pr.1 != "identity") = true ∧
    (wFs.all fun pr => pr.2.hashHex != "") = true ∧
    (∃ contentHash,
      fileSha512 wFs (pathJoin wStats.outputPath "shared.js") = some contentHash ∧
      (dictLookup wSharedFd.variants "identity").map VariantData.hash = some contentHash ∧
      wSharedFd.sriHash = sriFromHex contentHash ∧
      HashCall.variant "shared.js" "identity" "" ∉ wBuild.calls) :=
  ⟨rfl, rfl, by decide, by decide,
   @c2_identity_hash_reused wPlugin wFs wStats wBuild "shared.js" wSharedFd rfl rfl
     (by decide) (by decide)⟩

/-- C3: a configured variant whose sibling file is absent contributes no
entry (and no placeholder) to the file's variants mapping, while the build
itself succeeds. -/
theorem c3_missing_variant_omitted {p : Plugin} {fs : FS} {stats : Stats} {res : BuildState}
    {file vn ext : String} {fd : FileData}
    (h : buildManifest p fs stats = some res)
    (hf : dictLookup res.files file = some fd)
    (hmem : (vn, ext) ∈ p.variants)
    (hvn : vn ≠ "identity")
    (hnodup : (dictKeys p.variants).Nodup)
    (hmiss : FS.stat fs (pathJoin stats.outputPath (file ++ ext)) = none) :
    dictLookup fd.variants vn = none := by
  obtain ⟨stt, hstat, rfl⟩ := buildManifest_files_data h file fd hf
  rw [buildFileData_variants]
  apply probeVariants_lookup_none
  · exact computeVariant_empty_lookup fs stats.outputPath file "" "identity"
      (some stt.hashHex) hvn
  · intro ext' hmem'
    have hexts : ext' = ext := dictKeys_nodup_mem_unique hnodup hmem' hmem
    rw [hexts]
    exact hmiss

/-- Witness for C3: `main.css` has no `.br` sibling in the fixture output
directory, so its record has no `br` variant entry. -/
theorem c3_missing_variant_omitted_witness :
    buildManifest wPlugin wFs wStats = some wBuild ∧
    dictLookup wBuild.files "main.css" = some wCssFd ∧
    ("br", ".br") ∈ wPlugin.variants ∧
    (dictKeys wPlugin.variants).Nodup ∧
    FS.stat wFs (pathJoin wStats.outputPath ("main.css" ++ ".br")) = none ∧
    dictLookup wCssFd.variants "br" = none :=
  ⟨rfl, rfl, by decide, by decide, by decide,
   @c3_missing_variant_omitted wPlugin wFs wStats wBuild "main.css" "br" ".br" wCssFd
     rfl rfl (by decide) (by decide) (by decide) (by decide)⟩

/-- C7: every produced `FileRecord` has an `identity` variant whose `file`
field is the base filename unchanged, and any other variant key present
corresponds to a configured suffix whose sibling file exists on disk. -/
theorem c7_identity_always_others_on_disk {p : Plugin} {fs : FS} {stats : Stats}
    {res : BuildState} {file : String} {fd : FileData}
    (h : buildManifest p fs stats = some res)
    (hf : dictLookup res.files file = some fd)
    (hid : (p.variants.all fun pr => pr.1 != "identity") = true) :
    (∃ vd, dictLookup fd.variants "identity" = some vd ∧ vd.file = file) ∧
    (∀ vn vd, vn ≠ "identity" → dictLookup fd.variants vn = some vd →
      ∃ ext fsf, (vn, ext) ∈ p.variants ∧
        FS.stat fs (pathJoin stats.outputPath (file ++ ext)) = some fsf) := by
  have hid' : ∀ ext, ("identity", ext) ∉ p.variants := by
    intro ext hmem
    have := List.all_eq_true.mp hid _ hmem
    simp at this
  obtain ⟨stt, hstat, rfl⟩ := buildManifest_files_data h file fd hf
  constructor
  · exact ⟨_, buildFileData_identity hstat hid', rfl⟩
  · intro vn vd hvn hlook
    rw [buildFileData_variants] at hlook
    rcases probeVariants_lookup_some hlook with hinit | ⟨ext, fsf, hmem, hstat'⟩
    · rw [computeVariant_empty_lookup fs stats.outputPath file "" "identity"
        (some stt.hashHex) hvn] at hinit
      cases hinit
    · exact ⟨ext, fsf, hmem, hstat'⟩

/-- Witness for C7 at the fixture build's `shared.js`, whose `br` sibling
exists on disk. -/
theorem c7_identity_always_others_on_disk_witness :
    buildManifest wPlugin wFs wStats = some wBuild ∧
    dictLookup wBuild.files "shared.js" = some wSharedFd ∧
    (wPlugin.variants.all fun pr => pr.1 != "identity") = true ∧
    ((∃ vd, dictLookup wSharedFd.variants "identity" = some vd ∧ vd.file = "shared.js") ∧
     (∀ vn vd, vn ≠ "identity" → dictLookup wSharedFd.variants vn = some vd →
       ∃ ext fsf, (vn, ext) ∈ wPlugin.variants ∧
         FS.stat wFs (pathJoin wStats.outputPath ("shared.js" ++ ext)) = some fsf)) :=
  ⟨rfl, rfl, by decide,
   @c7_identity_always_others_on_disk wPlugin wFs wStats wBuild "shared.js" wSharedFd
     rfl rfl (by decide)⟩

/-! ### Claims C5 and C9: per-file routing and determinism -/

/-- C5: processing one file of an entrypoint's chunk appends it to
`scripts` when it classifies as `application/javascript`, to `stylesheets`
when `text/css`, and to neither list otherwise — and in all three cases
the filename ends up as a key of the files mapping. -/
theorem c5_classification_routes {p : Plugin} {fs : FS} {outPath : String}
    {st st' : BuildState} {name file : String} {ep : EntrypointData}
    (h : processFile p fs outPath st name file = some st')
    (hep : dictLookup st.entrypoints name = some ep) :
    ∃ ep', dictLookup st'.entrypoints name = some ep' ∧
      (_determineContentType p.fileTypes file = "application/javascript" →
        ep'.scripts = ep.scripts ++ [file] ∧ ep'.stylesheets = ep.stylesheets) ∧
      (_determineContentType p.fileTypes file = "text/css" →
        ep'.stylesheets = ep.stylesheets ++ [file] ∧ ep'.scripts = ep.scripts) ∧
      (_determineContentType p.fileTypes file ≠ "application/javascript" →
        _determineContentType p.fileTypes file ≠ "text/css" → ep' = ep) ∧
      (dictLookup st'.files file).isSome := by
  have hent : st'.entrypoints =
      pushClassified st.entrypoints name (_determineContentType p.fileTypes file) file := by
    rcases processFile_cases h with ⟨fd, _, rfl⟩ | ⟨stt, _, _, rfl⟩ <;> rfl
  refine ⟨_, by rw [hent]; exact dictLookup_pushClassified_self _ _ hep, ?_, ?_, ?_,
    processFile_ensures h⟩
  · intro h1
    rw [if_pos h1]
    exact ⟨rfl, rfl⟩
  · intro h1
    by_cases h2 : _determineContentType p.fileTypes file = "application/javascript"
    · rw [h2] at h1
      exact absurd h1 (by decide)
    · rw [if_neg h2, if_pos h1]
      exact ⟨rfl, rfl⟩
  · intro h1 h2
    rw [if_neg h1, if_neg h2]

/-- Witness for C5: processing `shared.js` for entrypoint `one` from an
empty record. -/
theorem c5_classification_routes_witness :
    processFile wPlugin wFs "out" wSt5 "one" "shared.js" = some wSt5' ∧
    dictLookup wSt5.entrypoints "one" = some { stylesheets := [], scripts := [] } ∧
    (∃ ep', dictLookup wSt5'.entrypoints "one" = some ep' ∧
      (_determineContentType wPlugin.fileTypes "shared.js" = "application/javascript" →
        ep'.scripts = EntrypointData.scripts { stylesheets := [], scripts := [] } ++
          ["shared.js"] ∧
        ep'.stylesheets = EntrypointData.stylesheets { stylesheets := [], scripts := [] }) ∧
      (_determineContentType wPlugin.fileTypes "shared.js" = "text/css" →
        ep'.stylesheets = EntrypointData.stylesheets { stylesheets := [], scripts := [] } ++
          ["shared.js"] ∧
        ep'.scripts = EntrypointData.scripts { stylesheets := [], scripts := [] }) ∧
      (_determineContentType wPlugin.fileTypes "shared.js" ≠ "application/javascript" →
        _determineContentType wPlugin.fileTypes "shared.js" ≠ "text/css" →
        ep' = { stylesheets := [], scripts := [] }) ∧
      (dictLookup wSt5'.files "shared.js").isSome) :=
  ⟨rfl, rfl,
   @c5_classification_routes wPlugin wFs "out" wSt5 wSt5' "one" "shared.js"
     { stylesheets := [], scripts := [] } rfl rfl⟩

/-- C9: manifest generation is a pure function of the plugin
configuration, the filesystem state, and the build graph — two runs on
equal inputs produce the identical output path and byte-identical
serialized JSON. -/
theorem c9_deterministic (p₁ p₂ : Plugin) (fs₁ fs₂ : FS) (stats₁ stats₂ : Stats)
    (hp : p₁ = p₂) (hfs : fs₁ = fs₂) (hs : stats₁ = stats₂) :
    runPlugin p₁ fs₁ stats₁ = runPlugin p₂ fs₂ stats₂ := by
  rw [hp, hfs, hs]

/-- Witness for C9 at the fixture inputs. -/
theorem c9_deterministic_witness :
    wPlugin = wPlugin ∧ wFs = wFs ∧ wStats = wStats ∧
    runPlugin wPlugin wFs wStats = runPlugin wPlugin wFs wStats :=
  ⟨rfl, rfl, rfl, c9_deterministic wPlugin wPlugin wFs wFs wStats wStats rfl rfl rfl⟩

end EntrypointLister
